import Mathlib

/-!
# Verification of the markdown content-normalization and validation pipeline

A shallow embedding of the repository's content pipeline:
front-matter parsing and merging (`front-matter.ts`), the article
validator (`validator.ts`), the liquid-tag scanner and stripper
(`liquid-tags.ts`), and the markdown image/substantiality utilities
(`markdown.ts`).  Documents are represented as `List Char` internally
(`String` at the interfaces); the JavaScript regular expressions used by
the source are rendered as explicit backtracking matchers over character
lists, with greedy pieces enumerated longest-first and lazy pieces
shortest-first, exactly as a backtracking regex engine explores them.
-/

set_option maxHeartbeats 4000000

namespace Linus

/-! ## Character and string helpers -/

/-- JavaScript whitespace (`\s`), restricted to the ASCII whitespace
characters that occur in markdown documents. -/
def isWsChar (c : Char) : Bool :=
  c = ' ' || c = '\t' || c = '\n' || c = '\r' || c = '\x0b' || c = '\x0c'

/-- JavaScript word character (`\w`): ASCII letters, digits, underscore. -/
def isWordChar (c : Char) : Bool :=
  c.isAlphanum || c = '_'

/-- JavaScript `String.prototype.trim` on a character list. -/
def trimChars (cs : List Char) : List Char :=
  ((cs.dropWhile isWsChar).reverse.dropWhile isWsChar).reverse

/-- ASCII lowercasing, as `String.prototype.toLowerCase`. -/
def lowerStr (cs : List Char) : List Char :=
  cs.map Char.toLower

/-- `String.prototype.split(sep)` for a single separator character. -/
def splitOnChar (sep : Char) : List Char → List (List Char)
  | [] => [[]]
  | c :: rest =>
    match splitOnChar sep rest with
    | [] => [[]]
    | l :: ls => if c = sep then [] :: l :: ls else (c :: l) :: ls

/-- `markdown.split('\n')`. -/
def splitLines (cs : List Char) : List (List Char) :=
  splitOnChar '\n' cs

/-- Join lines back with newlines (inverse of `splitLines` on its image). -/
def joinLines : List (List Char) → List Char
  | [] => []
  | [l] => l
  | l :: ls => l ++ '\n' :: joinLines ls

def dquote : Char := Char.ofNat 34

def squote : Char := Char.ofNat 39

/-! ## Code-fence bookkeeping (shared by scanner and stripper)

A line whose trimmed content begins with three backticks toggles the
inside-a-fence state; a fence still open at the end of the document is
closed at the document's end. -/

def fenceMarker : List Char := "```".data

/-- One pass over the lines, recording closed fence ranges and the start
offset of a fence that is still open when the lines run out. -/
def fenceScan : List (List Char) → Nat → Option Nat → List (Nat × Nat) × Option Nat
  | [], _, st => ([], st)
  | l :: ls, offset, st =>
    if fenceMarker.isPrefixOf (trimChars l) then
      match st with
      | none => fenceScan ls (offset + l.length + 1) (some offset)
      | some fs =>
        let rec' := fenceScan ls (offset + l.length + 1) none
        ((fs, offset + l.length) :: rec'.1, rec'.2)
    else fenceScan ls (offset + l.length + 1) st

/-- The fenced character ranges of a document, an unterminated fence
extending to the document's end. -/
def codeFenceRanges (cs : List Char) : List (Nat × Nat) :=
  match fenceScan (splitLines cs) 0 none with
  | (rs, none) => rs
  | (rs, some fs) => rs ++ [(fs, cs.length)]

/-- `offset >= range.start && offset < range.end` for some recorded range. -/
def isInsideCodeFence (ranges : List (Nat × Nat)) (offset : Nat) : Bool :=
  ranges.any (fun r => r.1 ≤ offset && offset < r.2)

/-- 1-based line number of a character offset: count the newlines before it. -/
def lineNumberForOffset (cs : List Char) (offset : Nat) : Nat :=
  ((cs.take offset).countP (fun c => c = '\n')) + 1

/-! ## Backtracking regex matchers

Each matcher answers, for one start position, the question the JavaScript
engine answers during `exec`: is there a match starting exactly here, and
with which groups?  Greedy sub-patterns are enumerated longest-first and
lazy ones shortest-first, so the first success in enumeration order is
the same match the backtracking engine commits to. -/

/-- `n, n-1, …, 0` — candidate lengths for a greedy `\s*`-style piece. -/
def descRange (n : Nat) : List Nat :=
  (List.range (n + 1)).reverse

/-- `n, n-1, …, 1` — candidate lengths for a greedy one-or-more piece. -/
def descRangePos (n : Nat) : List Nat :=
  ((List.range n).map (fun k => k + 1)).reverse

/-- `0, 1, …, n` — candidate lengths for a lazy piece. -/
def ascRange (n : Nat) : List Nat :=
  List.range (n + 1)

/-- A liquid-tag regex match: total length, tag name group, argument
group, and (for block matches) the inner content group. -/
structure RegexMatch where
  len : Nat
  name : List Char
  arg : List Char
  content : Option (List Char)
deriving DecidableEq, Repr

def openTag : List Char := "\x7b%".data

def closeTag : List Char := "%\x7d".data

/-- Matcher for the inline tag pattern at one position. -/
def matchInlineAt (cs : List Char) (i : Nat) : Option RegexMatch :=
  let s := cs.drop i
  if openTag.isPrefixOf s then
    let s1 := s.drop 2
    (descRange (s1.takeWhile isWsChar).length).findSome? fun a =>
      let s2 := s1.drop a
      (descRangePos (s2.takeWhile isWordChar).length).findSome? fun nameLen =>
        let name := s2.take nameLen
        let s3 := s2.drop nameLen
        (descRange (s3.takeWhile isWsChar).length).findSome? fun a2 =>
          let s4 := s3.drop a2
          (ascRange (s4.takeWhile (fun c => c ≠ '\n')).length).findSome? fun b =>
            let s5 := s4.drop b
            (descRange (s5.takeWhile isWsChar).length).findSome? fun c =>
              if closeTag.isPrefixOf (s5.drop c) then
                some ⟨2 + a + nameLen + a2 + b + c + 2, name, s4.take b, none⟩
              else none
  else none

/-- Matcher for the closing marker of a block tag, with the
backreferenced tag name, at one position.  Returns the matched length. -/
def matchEndTagAt (name : List Char) (s : List Char) : Option Nat :=
  if openTag.isPrefixOf s then
    let s1 := s.drop 2
    let a := (s1.takeWhile isWsChar).length
    let s2 := s1.drop a
    if ("end".data ++ name).isPrefixOf s2 then
      let s3 := s2.drop (3 + name.length)
      let b := (s3.takeWhile isWsChar).length
      if closeTag.isPrefixOf (s3.drop b) then
        some (2 + a + 3 + name.length + b + 2)
      else none
    else none
  else none

/-- Matcher for the block tag pattern (opening marker, lazy content,
matching closing marker) at one position. -/
def matchBlockAt (cs : List Char) (i : Nat) : Option RegexMatch :=
  let s := cs.drop i
  if openTag.isPrefixOf s then
    let s1 := s.drop 2
    (descRange (s1.takeWhile isWsChar).length).findSome? fun a =>
      let s2 := s1.drop a
      (descRangePos (s2.takeWhile isWordChar).length).findSome? fun nameLen =>
        let name := s2.take nameLen
        let s3 := s2.drop nameLen
        (descRange (s3.takeWhile isWsChar).length).findSome? fun a2 =>
          let s4 := s3.drop a2
          (ascRange (s4.takeWhile (fun c => c ≠ '\n')).length).findSome? fun b =>
            let s5 := s4.drop b
            (descRange (s5.takeWhile isWsChar).length).findSome? fun c =>
              if closeTag.isPrefixOf (s5.drop c) then
                let s6 := s5.drop (c + 2)
                (ascRange s6.length).findSome? fun d =>
                  (matchEndTagAt name (s6.drop d)).map fun e =>
                    ⟨2 + a + nameLen + a2 + b + c + 2 + d + e, name, s4.take b,
                      some (s6.take d)⟩
              else none
  else none

/-! ## Global scanning and replacement

`scanFrom` models the `while (pattern.exec(text))` loop: successive
non-overlapping leftmost matches.  `replaceFrom` models
`text.replace(pattern, callback)`: the same scan, rebuilding the string
from unmatched characters and callback results. -/

def scanFrom {α : Type} (matchAt : Nat → Option α) (lenOf : α → Nat) :
    Nat → Nat → List (Nat × α)
  | _, 0 => []
  | i, fuel + 1 =>
    match matchAt i with
    | some m => (i, m) :: scanFrom matchAt lenOf (i + lenOf m) fuel
    | none => scanFrom matchAt lenOf (i + 1) fuel

/-- The text of a match: `len` characters starting at offset `i`. -/
def matchedText (cs : List Char) (i len : Nat) : List Char :=
  (cs.drop i).take len

def replaceFrom {α : Type} (cs : List Char) (matchAt : Nat → Option α)
    (lenOf : α → Nat) (cb : Nat → α → List Char) : Nat → Nat → List Char
  | i, 0 => cs.drop i
  | i, fuel + 1 =>
    match matchAt i with
    | some m => cb i m ++ replaceFrom cs matchAt lenOf cb (i + lenOf m) fuel
    | none => (cs.drop i).take 1 ++ replaceFrom cs matchAt lenOf cb (i + 1) fuel

/-! ## Liquid-tag table, scanner and stripper (`liquid-tags.ts`) -/

/-- A tag definition: cross-post safety and the conversion function
(argument, optional block content). -/
structure TagDef where
  crossPostSafe : Bool
  convert : String → Option String → String

def TAG_DEFS : List (String × TagDef) :=
  [ ("embed", ⟨false, fun arg _ => arg⟩)
  , ("link", ⟨false, fun arg _ => "[" ++ arg ++ "](" ++ arg ++ ")"⟩)
  , ("user", ⟨false, fun arg _ => "@" ++ arg⟩)
  , ("tag", ⟨false, fun arg _ => "#" ++ arg⟩)
  , ("github", ⟨false, fun arg _ => "[" ++ arg ++ "](https://github.com/" ++ arg ++ ")"⟩)
  , ("youtube", ⟨false, fun arg _ => "https://www.youtube.com/watch?v=" ++ arg⟩)
  , ("twitter", ⟨false, fun arg _ => "https://twitter.com/i/status/" ++ arg⟩)
  , ("codepen", ⟨false, fun arg _ => arg⟩)
  , ("codesandbox", ⟨false, fun arg _ => "https://codesandbox.io/s/" ++ arg⟩)
  , ("details", ⟨false, fun summary content =>
      "<details>\n<summary>" ++ summary ++ "</summary>\n\n" ++ content.getD "" ++ "\n</details>"⟩)
  , ("katex", ⟨false, fun _ content => "$$\n" ++ content.getD "" ++ "\n$$"⟩) ]

/-- `TAG_DEFS[tagName]` lookup. -/
def tagDefFor (name : String) : Option TagDef :=
  (TAG_DEFS.find? (fun e => e.1 == name)).map (fun e => e.2)

/-- `tagDef?.crossPostSafe ?? false`. -/
def crossPostSafeFor (name : String) : Bool :=
  match tagDefFor name with
  | some d => d.crossPostSafe
  | none => false

structure LiquidTagMatch where
  tag : String
  argument : String
  fullMatch : String
  lineNumber : Nat
  crossPostSafe : Bool
  hasEndTag : Bool
deriving DecidableEq, Repr

structure LiquidTagReport where
  tags : List LiquidTagMatch
  hasCrossPostUnsafe : Bool
deriving DecidableEq, Repr

/-- Membership of an offset in one of the recorded block-tag spans. -/
def spanContains (spans : List (Nat × Nat)) (i : Nat) : Bool :=
  spans.any (fun p => p.1 ≤ i && i < p.1 + p.2)

/-- The matches `detectLiquidTags` keeps: block matches outside code
fences, then inline matches outside code fences whose tag name does not
begin with `end` and whose offset is not inside a kept block span.  Each
entry carries its start offset and whether it came from the block pass. -/
def detectKept (cs : List Char) : List (Nat × RegexMatch × Bool) :=
  let ranges := codeFenceRanges cs
  let blockAll := scanFrom (matchBlockAt cs) (fun m => m.len) 0 (cs.length + 1)
  let blockKept := blockAll.filter (fun e => !(isInsideCodeFence ranges e.1))
  let spans := blockKept.map (fun e => (e.1, e.2.len))
  let inlineAll := scanFrom (matchInlineAt cs) (fun m => m.len) 0 (cs.length + 1)
  let inlineKept := inlineAll.filter (fun e =>
    !(isInsideCodeFence ranges e.1) &&
    !("end".data.isPrefixOf (lowerStr e.2.name)) &&
    !(spanContains spans e.1))
  blockKept.map (fun e => (e.1, e.2, true)) ++ inlineKept.map (fun e => (e.1, e.2, false))

/-- Build the reported record for one kept match. -/
def toLiquidTag (cs : List Char) (e : Nat × RegexMatch × Bool) : LiquidTagMatch :=
  { tag := String.mk (lowerStr e.2.1.name)
  , argument := String.mk (trimChars e.2.1.arg)
  , fullMatch := String.mk (matchedText cs e.1 e.2.1.len)
  , lineNumber := lineNumberForOffset cs e.1
  , crossPostSafe := crossPostSafeFor (String.mk (lowerStr e.2.1.name))
  , hasEndTag := e.2.2 }

/-- Stable insertion before the first entry with a line number that is
not smaller — the stable sort `tags.sort((a, b) => a.lineNumber - b.lineNumber)`. -/
def insertByLine (t : LiquidTagMatch) : List LiquidTagMatch → List LiquidTagMatch
  | [] => [t]
  | u :: us => if u.lineNumber < t.lineNumber then u :: insertByLine t us else t :: u :: us

def sortByLine : List LiquidTagMatch → List LiquidTagMatch
  | [] => []
  | t :: ts => insertByLine t (sortByLine ts)

def detectLiquidTags (md : String) : LiquidTagReport :=
  if md = "" then ⟨[], false⟩
  else
    let cs := md.data
    let tags := sortByLine ((detectKept cs).map (toLiquidTag cs))
    ⟨tags, tags.any (fun t => !t.crossPostSafe)⟩

/-- Replacement for one block match in `stripLiquidTags`: a match inside
a code fence of the current string is put back verbatim; otherwise the
tag converter (or the unknown-tag fallback `content.trim() || argument.trim()`)
supplies the replacement. -/
def stripBlockCb (cs : List Char) (i : Nat) (m : RegexMatch) : List Char :=
  let ranges := codeFenceRanges cs
  if isInsideCodeFence ranges i then matchedText cs i m.len
  else
    let argS := String.mk (trimChars m.arg)
    let contentS := String.mk (trimChars (m.content.getD []))
    match tagDefFor (String.mk (lowerStr m.name)) with
    | none => if contentS = "" then argS.data else contentS.data
    | some d => (d.convert argS (some contentS)).data

/-- Replacement for one inline match in `stripLiquidTags`: textual
closing markers and matches inside a code fence are put back verbatim. -/
def stripInlineCb (cs : List Char) (i : Nat) (m : RegexMatch) : List Char :=
  let lower := lowerStr m.name
  if "end".data.isPrefixOf lower then matchedText cs i m.len
  else
    let ranges := codeFenceRanges cs
    if isInsideCodeFence ranges i then matchedText cs i m.len
    else
      match tagDefFor (String.mk lower) with
      | none => trimChars m.arg
      | some d => (d.convert (String.mk (trimChars m.arg)) none).data

def stripLiquidTags (md : String) : String :=
  if md = "" then ""
  else
    let cs := md.data
    let cs1 := replaceFrom cs (matchBlockAt cs) (fun m => m.len) (stripBlockCb cs)
      0 (cs.length + 1)
    let cs2 := replaceFrom cs1 (matchInlineAt cs1) (fun m => m.len) (stripInlineCb cs1)
      0 (cs1.length + 1)
    String.mk cs2

/-! ## Image references (`markdown.ts`) -/

structure ImageUrlInfo where
  url : String
  lineNumber : Nat
  isAbsolute : Bool
deriving DecidableEq, Repr

/-- The test `/^https?:\/\//i.test(url)`. -/
def isAbsoluteUrl (url : String) : Bool :=
  "http://".data.isPrefixOf (lowerStr url.data) ||
  "https://".data.isPrefixOf (lowerStr url.data)

/-- Matcher for the markdown image pattern at one position, returning
the match length and the url group. -/
def matchMdImageAt (cs : List Char) (i : Nat) : Option (Nat × List Char) :=
  let s := cs.drop i
  if "![".data.isPrefixOf s then
    let s1 := s.drop 2
    (ascRange (s1.takeWhile (fun c => c ≠ '\n')).length).findSome? fun b1 =>
      if "](".data.isPrefixOf (s1.drop b1) then
        let s2 := s1.drop (b1 + 2)
        (ascRange (s2.takeWhile (fun c => c ≠ '\n')).length).findSome? fun b2 =>
          if (s2.drop b2).head? = some ')' then
            some (2 + b1 + 2 + b2 + 1, s2.take b2)
          else none
      else none
  else none

/-- Case-insensitive literal at the start of `s` (for the `/i` flag). -/
def ciHasAt (pat : List Char) (s : List Char) : Bool :=
  pat.isPrefixOf (lowerStr (s.take pat.length)) && pat.length ≤ s.length

/-- Matcher for the HTML image pattern
(an `img` element with a quoted `src` attribute, case-insensitive) at
one position, returning the match length and the url group.  The greedy
one-or-more gap between `<img` and `src=` is enumerated longest-first,
reproducing the engine's preference for the rightmost `src=`. -/
def matchHtmlImgAt (cs : List Char) (i : Nat) : Option (Nat × List Char) :=
  let s := cs.drop i
  if ciHasAt "<img".data s then
    let s1 := s.drop 4
    (descRangePos (s1.takeWhile (fun c => c ≠ '>')).length).findSome? fun k =>
      let s2 := s1.drop k
      if ciHasAt "src=".data s2 then
        let s3 := s2.drop 4
        match s3.head? with
        | some q =>
          if q = dquote || q = squote then
            let s4 := s3.drop 1
            (ascRange (s4.takeWhile (fun c => c ≠ '\n')).length).findSome? fun b =>
              match (s4.drop b).head? with
              | some q2 =>
                if q2 = dquote || q2 = squote then
                  let s5 := s4.drop (b + 1)
                  let j := (s5.takeWhile (fun c => c ≠ '>')).length
                  if (s5.drop j).head? = some '>' then
                    some (4 + k + 4 + 1 + b + 1 + j + 1, s4.take b)
                  else none
                else none
              | none => none
          else none
        | none => none
      else none
  else none

/-- The references contributed by one line: all markdown-image matches
in order, then all HTML-image matches in order. -/
def lineImageRefs (line : List Char) (n : Nat) : List ImageUrlInfo :=
  ((scanFrom (matchMdImageAt line) (fun m => m.1) 0 (line.length + 1)).map fun r =>
    let u := String.mk (trimChars r.2.2)
    ImageUrlInfo.mk u n (isAbsoluteUrl u)) ++
  ((scanFrom (matchHtmlImgAt line) (fun m => m.1) 0 (line.length + 1)).map fun r =>
    let u := String.mk (trimChars r.2.2)
    ImageUrlInfo.mk u n (isAbsoluteUrl u))

def extractLoop : List (List Char) → Nat → List ImageUrlInfo
  | [], _ => []
  | line :: rest, idx => lineImageRefs line (idx + 1) ++ extractLoop rest (idx + 1)

def extractImageUrls (md : String) : List ImageUrlInfo :=
  if md = "" then [] else extractLoop (splitLines md.data) 0

/-! ## Content substantiality (`markdown.ts`) -/

/-- Matcher for a fenced code block (lazy content between two triple
backticks), replaced by the empty string. -/
def matchFenceBlockAt (cs : List Char) (i : Nat) : Option (Nat × List Char) :=
  let s := cs.drop i
  if fenceMarker.isPrefixOf s then
    let s1 := s.drop 3
    (ascRange s1.length).findSome? fun d =>
      if fenceMarker.isPrefixOf (s1.drop d) then some (3 + d + 3, []) else none
  else none

def backtick : Char := Char.ofNat 96

/-- Matcher for an inline code span (backtick, one or more
non-backticks, backtick), replaced by the empty string. -/
def matchInlineCodeAt (cs : List Char) (i : Nat) : Option (Nat × List Char) :=
  let s := cs.drop i
  match s.head? with
  | some c =>
    if c = backtick then
      let run := ((s.drop 1).takeWhile (fun x => x ≠ backtick)).length
      if 0 < run && ((s.drop 1).drop run).head? = some backtick then
        some (run + 2, [])
      else none
    else none
  | none => none

/-- Matcher for a markdown link, replaced by its label group. -/
def matchLinkAt (cs : List Char) (i : Nat) : Option (Nat × List Char) :=
  let s := cs.drop i
  match s.head? with
  | some c =>
    if c = '[' then
      let grp := (s.drop 1).takeWhile (fun x => x ≠ ']')
      if "](".data.isPrefixOf ((s.drop 1).drop grp.length) then
        let s2 := (s.drop 1).drop (grp.length + 2)
        (ascRange (s2.takeWhile (fun x => x ≠ '\n')).length).findSome? fun b =>
          if (s2.drop b).head? = some ')' then
            some (1 + grp.length + 2 + b + 1, grp)
          else none
      else none
    else none
  | none => none

/-- Matcher for an HTML tag (`<`, one or more non-`>`, `>`), replaced by
the empty string. -/
def matchHtmlTagAt (cs : List Char) (i : Nat) : Option (Nat × List Char) :=
  let s := cs.drop i
  match s.head? with
  | some c =>
    if c = '<' then
      let run := ((s.drop 1).takeWhile (fun x => x ≠ '>')).length
      if 0 < run && ((s.drop 1).drop run).head? = some '>' then
        some (run + 2, [])
      else none
    else none
  | none => none

/-- Matcher for one markdown punctuation character, replaced by the
empty string. -/
def matchPunctAt (cs : List Char) (i : Nat) : Option (Nat × List Char) :=
  match (cs.drop i).head? with
  | some c =>
    if c = '#' || c = '*' || c = '_' || c = '~' || c = '>' || c = '-' then
      some (1, [])
    else none
  | none => none

/-- `text.replace(pattern, repl)` with a global flag: every match is
replaced by the payload its matcher computed. -/
def globalReplace (matchAt : List Char → Nat → Option (Nat × List Char))
    (cs : List Char) : List Char :=
  replaceFrom cs (matchAt cs) (fun m => m.1) (fun _ m => m.2) 0 (cs.length + 1)

/-- The stripping pipeline of `isSubstantialContent`: code fences,
inline code, images, links rewritten to their labels, HTML tags, then
markdown punctuation. -/
def strippedContent (cs : List Char) : List Char :=
  globalReplace matchPunctAt
    (globalReplace matchHtmlTagAt
      (globalReplace matchLinkAt
        (globalReplace matchMdImageAt
          (globalReplace matchInlineCodeAt
            (globalReplace matchFenceBlockAt cs)))))

/-- Maximal whitespace-separated tokens (`trim().split(/\s+/)` with
empty tokens discarded). -/
def wsTokens : List Char → List (List Char)
  | [] => []
  | c :: rest =>
    let r := wsTokens rest
    if isWsChar c then r
    else
      match rest with
      | [] => [[c]]
      | d :: _ =>
        if isWsChar d then [c] :: r
        else
          match r with
          | t :: ts => (c :: t) :: ts
          | [] => [[c]]

def isSubstantialContent (md : String) : Bool :=
  if md = "" || String.mk (trimChars md.data) = "" then false
  else decide (10 ≤ (wsTokens (strippedContent md.data)).length)

/-! ## JavaScript values for front-matter data and parameter records -/

/-- The values flowing through the front-matter merge: strings, flat
string lists, booleans, `null`, and `undefined`. -/
inductive JVal where
  | str (s : String)
  | list (xs : List String)
  | bool (b : Bool)
  | null
  | undefined
deriving DecidableEq, Repr

/-- JavaScript `String(v)` on these values (`Array.prototype.toString`
joins with bare commas). -/
def jstring : JVal → String
  | .str s => s
  | .list xs => String.intercalate "," xs
  | .bool b => if b then "true" else "false"
  | .null => "null"
  | .undefined => "undefined"

/-- `normalizeTags`: a list joins with comma-space, a string passes
through, anything else becomes `String(tags ?? '')`. -/
def normalizeTags : JVal → String
  | .list xs => String.intercalate ", " xs
  | .str s => s
  | .bool b => if b then "true" else "false"
  | .null => ""
  | .undefined => ""

/-- JavaScript object as an insertion-ordered association list. -/
def objHas (o : List (String × JVal)) (k : String) : Bool :=
  o.any (fun p => p.1 == k)

def objGet (o : List (String × JVal)) (k : String) : Option JVal :=
  (o.find? (fun p => p.1 == k)).map (fun p => p.2)

/-- Property read, `undefined` when absent. -/
def objGetJS (o : List (String × JVal)) (k : String) : JVal :=
  (objGet o k).getD .undefined

/-- Property write: updates in place when the key exists, appends
otherwise (JavaScript property-order semantics). -/
def objSet (o : List (String × JVal)) (k : String) (v : JVal) : List (String × JVal) :=
  if objHas o k then o.map (fun p => if p.1 == k then (k, v) else p)
  else o ++ [(k, v)]

/-! ## Front-matter parsing (`front-matter.ts`) -/

/-- One indented list item (`  - value`). -/
def parseItemLine (l : List Char) : Option String :=
  match l.head? with
  | some c =>
    if isWsChar c && "- ".data.isPrefixOf (trimChars l) then
      some (String.mk (trimChars ((trimChars l).drop 2)))
    else none
  | none => none

/-- Split a line at its first colon. -/
def splitAtColon (l : List Char) : Option (List Char × List Char) :=
  match l.findIdx? (fun c => c == ':') with
  | some j => some (l.take j, l.drop (j + 1))
  | none => none

/-- Modelled from the spec: the key/value block recognizer of the
external `gray-matter` dependency (the YAML parser is not part of
`src/`).  Per §4.1 each line is `key: scalar`, or `key:` followed by an
indented `- item` list (used for `tags`); blank lines are skipped; any
other shape means the block is malformed and no front matter is found. -/
def parseKVGo : Nat → List (List Char) → Option (List (String × JVal))
  | 0, [] => some []
  | 0, _ :: _ => none
  | fuel + 1, lines =>
    match lines with
    | [] => some []
    | l :: rest =>
      if trimChars l = [] then parseKVGo fuel rest
      else
        match l.head? with
        | none => parseKVGo fuel rest
        | some c =>
          if isWsChar c then none
          else
            match splitAtColon l with
            | none => none
            | some (k, v) =>
              let key := String.mk (trimChars k)
              if key = "" then none
              else
                let value := trimChars v
                if value ≠ [] then
                  (parseKVGo fuel rest).map (fun kvs => (key, JVal.str (String.mk value)) :: kvs)
                else
                  let itemLines := rest.takeWhile (fun r => (parseItemLine r).isSome)
                  let items := itemLines.filterMap parseItemLine
                  if items = [] then none
                  else
                    (parseKVGo fuel (rest.drop itemLines.length)).map
                      (fun kvs => (key, JVal.list items) :: kvs)

/-- Modelled from the spec: `matter(body)` of the external `gray-matter`
dependency.  The document must open with a line that is exactly `---`,
followed by key/value lines, terminated by another such line; the clean
content is everything after the closing delimiter.  Any other shape —
including an unterminated or malformed block, which the library would
signal by throwing — is `none`. -/
def matterParse (body : String) : Option (List (String × JVal) × String) :=
  match splitLines body.data with
  | [] => none
  | first :: rest =>
    if first = "---".data then
      match rest.findIdx? (fun l => l == "---".data) with
      | some k =>
        match parseKVGo (k + 1) (rest.take k) with
        | some kvs => some (kvs, String.mk (joinLines (rest.drop (k + 1))))
        | none => none
      | none => none
    else none

structure FrontMatterResult where
  cleanBody : String
  extractedValues : List (String × JVal)
  hasFrontMatter : Bool
deriving DecidableEq, Repr

def parseFrontMatter (body : String) : FrontMatterResult :=
  if String.mk (trimChars body.data) = "" then ⟨body, [], false⟩
  else
    match matterParse body with
    | some (data, content) => ⟨content, data, !data.isEmpty⟩
    | none => ⟨body, [], false⟩

/-! ## Front-matter merging (`front-matter.ts`) -/

def KNOWN_FIELDS : List String :=
  ["title", "published", "description", "tags", "series", "canonical_url",
   "cover_image", "main_image"]

/-- Seed the working map from recognized front-matter keys: `tags` is
normalized, `cover_image` lands in `main_image`. -/
def seedKnownFields (extracted : List (String × JVal)) : List (String × JVal) :=
  KNOWN_FIELDS.foldl
    (fun merged field =>
      if objHas extracted field then
        if field = "tags" then
          objSet merged "tags" (.str (normalizeTags (objGetJS extracted "tags")))
        else if field = "cover_image" then
          objSet merged "main_image" (objGetJS extracted "cover_image")
        else objSet merged field (objGetJS extracted field)
      else merged)
    []

structure MergeConflict where
  field : String
  frontMatterValue : JVal
  jsonValue : JVal
deriving DecidableEq, Repr

structure MergeResult where
  body : String
  params : List (String × JVal)
  conflicts : List MergeConflict
deriving DecidableEq, Repr

/-- The loop over `Object.entries(jsonParams)`: skip `undefined` values,
resolve the front-matter counterpart through the
`main_image → cover_image` alias, record a conflict on a string-form
mismatch (tags normalized on both sides), and always write the explicit
value into the working map. -/
def mergeLoop (extracted : List (String × JVal)) :
    List (String × JVal) → List MergeConflict → List (String × JVal) →
    List (String × JVal) × List MergeConflict
  | merged, conflicts, [] => (merged, conflicts)
  | merged, conflicts, (k, v) :: rest =>
    if v = .undefined then mergeLoop extracted merged conflicts rest
    else
      let fmKey := if k = "main_image" then "cover_image" else k
      let fmValue :=
        if objHas extracted fmKey then objGetJS extracted fmKey
        else if objHas extracted k then objGetJS extracted k
        else JVal.undefined
      let conflicts' :=
        if fmValue ≠ .undefined then
          let nFm := if k = "tags" then JVal.str (normalizeTags fmValue) else fmValue
          let nJson := if k = "tags" then JVal.str (normalizeTags v) else v
          if jstring nFm ≠ jstring nJson then conflicts ++ [⟨k, nFm, nJson⟩]
          else conflicts
        else conflicts
      mergeLoop extracted (objSet merged k v) conflicts' rest

def mergeAndNormalize (body : Option String) (jsonParams : List (String × JVal)) :
    MergeResult :=
  match body with
  | none => ⟨"", jsonParams, []⟩
  | some b =>
    if b = "" then ⟨"", jsonParams, []⟩
    else
      let pf := parseFrontMatter b
      if !pf.hasFrontMatter then ⟨pf.cleanBody, jsonParams, []⟩
      else
        let r := mergeLoop pf.extractedValues (seedKnownFields pf.extractedValues)
          [] jsonParams
        ⟨pf.cleanBody, r.1, r.2⟩

/-! ## Article validation (`validator.ts`) -/

inductive Severity where
  | error
  | warning
  | info
deriving DecidableEq, Repr

structure ValidationIssue where
  severity : Severity
  code : String
  message : String
  line : Option Nat := none
deriving DecidableEq, Repr

structure ValidationResult where
  valid : Bool
  issues : List ValidationIssue
deriving DecidableEq, Repr

/-- `tags?: string | string[]`. -/
inductive TagsParam where
  | str (s : String)
  | arr (xs : List String)
deriving DecidableEq, Repr

structure ValidateArticleParams where
  title : Option String := none
  body_markdown : Option String := none
  tags : Option TagsParam := none
  main_image : Option String := none
  canonical_url : Option String := none
  description : Option String := none
  published : Option Bool := none
deriving DecidableEq, Repr

/-- JavaScript truthiness of an optional string: absent and empty are
both falsy. -/
def strTruthy : Option String → Bool
  | none => false
  | some s => !(s == "")

/-- Truthiness of the `tags` parameter: an array is always truthy, a
string only when non-empty. -/
def tagsTruthy : Option TagsParam → Bool
  | none => false
  | some (.str s) => !(s == "")
  | some (.arr _) => true

/-- `normalizeTagList`: arrays are trimmed and lowercased entrywise; a
string is split on commas, trimmed, lowercased, empties dropped. -/
def normalizeTagList : TagsParam → List String
  | .arr xs => xs.map (fun t => String.mk (lowerStr (trimChars t.data)))
  | .str s =>
    (((splitOnChar ',' s.data).map (fun t => String.mk (lowerStr (trimChars t)))).filter
      (fun t => !(t == "")))

/-- The tag pattern `/^[a-z0-9_]+$/`. -/
def isValidTag (t : String) : Bool :=
  !(t == "") && t.data.all (fun c => ('a' ≤ c && c ≤ 'z') || c.isDigit || c = '_')

def presenceIssues (p : ValidateArticleParams) : List ValidationIssue :=
  if !strTruthy p.title && !strTruthy p.body_markdown then
    [⟨.error, "validation_failed", "Article must have a title or body_markdown.", none⟩]
  else []

def tagIssues (p : ValidateArticleParams) : List ValidationIssue :=
  if tagsTruthy p.tags then
    let tagList := normalizeTagList (p.tags.getD (.str ""))
    (if 4 < tagList.length then
      [⟨.error, "validation_failed",
        "Too many tags (" ++ toString tagList.length ++ "). Maximum is 4.", none⟩]
     else []) ++
    tagList.filterMap (fun t =>
      if isValidTag t then none
      else
        some ⟨.error, "validation_failed",
          "Invalid tag \"" ++ t ++ "\". Tags must be lowercase alphanumeric with underscores only.",
          none⟩)
  else []

def coverImageIssues (p : ValidateArticleParams) : List ValidationIssue :=
  if strTruthy p.main_image && !(isAbsoluteUrl (p.main_image.getD "")) then
    [⟨.error, "image_not_absolute",
      "Cover image URL must be absolute: \"" ++ p.main_image.getD "" ++ "\"", none⟩]
  else []

def bodyImageIssues (p : ValidateArticleParams) : List ValidationIssue :=
  if strTruthy p.body_markdown then
    (extractImageUrls (p.body_markdown.getD "")).filterMap (fun im =>
      if im.isAbsolute then none
      else
        some ⟨.error, "image_not_absolute",
          "Image on line " ++ toString im.lineNumber ++ " uses non-absolute URL: \"" ++
            im.url ++ "\"",
          some im.lineNumber⟩)
  else []

/-- The `jsonFields` object: the four compared fields, in insertion
order, restricted to those present (`!== undefined`) in the params. -/
def jsonFieldsOf (p : ValidateArticleParams) : List (String × JVal) :=
  (match p.title with
   | some t => [("title", JVal.str t)]
   | none => []) ++
  (match p.tags with
   | some (.str s) => [("tags", JVal.str s)]
   | some (.arr xs) => [("tags", JVal.list xs)]
   | none => []) ++
  (match p.description with
   | some d => [("description", JVal.str d)]
   | none => []) ++
  (match p.main_image with
   | some m => [("main_image", JVal.str m)]
   | none => [])

/-- `extractedValues[frontMatterKey] ?? extractedValues[field]` — the
nullish-coalescing fallback read. -/
def fmLookupJS (extracted : List (String × JVal)) (fmKey field : String) : JVal :=
  let a := objGetJS extracted fmKey
  if a = .undefined || a = .null then objGetJS extracted field else a

/-- The front-matter conflict pass of `validateArticle`: for each
present field, a warning when the raw `String(...)` forms differ. -/
def fmConflictIssues (p : ValidateArticleParams) : List ValidationIssue :=
  if strTruthy p.body_markdown then
    let pf := parseFrontMatter (p.body_markdown.getD "")
    if pf.hasFrontMatter then
      (jsonFieldsOf p).filterMap (fun e =>
        let fmKey := if e.1 = "main_image" then "cover_image" else e.1
        let fmValue := fmLookupJS pf.extractedValues fmKey e.1
        if fmValue ≠ JVal.undefined && !(jstring fmValue == jstring e.2) then
          some ⟨.warning, "front_matter_conflict",
            "Front matter \"" ++ fmKey ++ "\" value \"" ++ jstring fmValue ++
              "\" conflicts with parameter \"" ++ jstring e.2 ++
              "\". Parameter value will be used.",
            none⟩
        else none)
    else []
  else []

def liquidIssues (p : ValidateArticleParams) : List ValidationIssue :=
  if strTruthy p.body_markdown then
    (detectLiquidTags (p.body_markdown.getD "")).tags.map (fun t =>
      ⟨.info, "liquid_tag_detected",
        "Liquid tag \x7b% " ++ t.tag ++ " " ++ t.argument ++ " %\x7d on line " ++
          toString t.lineNumber ++
          (if t.crossPostSafe then "" else " (not cross-post safe)"),
        some t.lineNumber⟩)
  else []

def qualityIssues (p : ValidateArticleParams) : List ValidationIssue :=
  if strTruthy p.body_markdown && !(isSubstantialContent (p.body_markdown.getD "")) then
    [⟨.warning, "validation_failed", "Article body appears to lack substantial content.",
      none⟩]
  else []

def validateArticle (p : ValidateArticleParams) : ValidationResult :=
  let issues :=
    presenceIssues p ++ tagIssues p ++ coverImageIssues p ++ bodyImageIssues p ++
    fmConflictIssues p ++ liquidIssues p ++ qualityIssues p
  ⟨!(issues.any (fun i => i.severity == .error)), issues⟩

/-! ## General lemmas -/

theorem string_mk_data (s : String) : String.mk s.data = s := rfl

theorem drop_take_append (cs : List Char) (i n : Nat) :
    (cs.drop i).take n ++ cs.drop (i + n) = cs.drop i := by
  have h : cs.drop (i + n) = (cs.drop i).drop n := by
    rw [List.drop_drop, Nat.add_comm]
  rw [h, List.take_append_drop]

/-- When every callback answer is the matched text itself, global
replacement rebuilds the suffix it started from. -/
theorem replaceFrom_id {α : Type} (cs : List Char) (matchAt : Nat → Option α)
    (lenOf : α → Nat) (cb : Nat → α → List Char)
    (h : ∀ i m, matchAt i = some m → cb i m = matchedText cs i (lenOf m)) :
    ∀ fuel i, replaceFrom cs matchAt lenOf cb i fuel = cs.drop i := by
  intro fuel
  induction fuel with
  | zero => intro i; rfl
  | succ n ih =>
    intro i
    unfold replaceFrom
    cases hm : matchAt i with
    | some m =>
      show cb i m ++ replaceFrom cs matchAt lenOf cb (i + lenOf m) n = cs.drop i
      rw [ih, h i m hm, matchedText, drop_take_append]
    | none =>
      show (cs.drop i).take 1 ++ replaceFrom cs matchAt lenOf cb (i + 1) n = cs.drop i
      rw [ih]; exact drop_take_append cs i 1

theorem matchBlockAt_none_of_ge (cs : List Char) (i : Nat) (h : cs.length ≤ i) :
    matchBlockAt cs i = none := by
  have hd : cs.drop i = [] := List.drop_eq_nil_of_le h
  simp [matchBlockAt, hd, openTag]

theorem matchInlineAt_none_of_ge (cs : List Char) (i : Nat) (h : cs.length ≤ i) :
    matchInlineAt cs i = none := by
  have hd : cs.drop i = [] := List.drop_eq_nil_of_le h
  simp [matchInlineAt, hd, openTag]

theorem mem_insertByLine (u t : LiquidTagMatch) (l : List LiquidTagMatch) :
    u ∈ insertByLine t l ↔ u = t ∨ u ∈ l := by
  induction l with
  | nil => simp [insertByLine]
  | cons x xs ih =>
    show u ∈ (if x.lineNumber < t.lineNumber then x :: insertByLine t xs else t :: x :: xs) ↔ _
    split
    · simp [ih]
      try tauto
    · simp
      try tauto

theorem mem_sortByLine (u : LiquidTagMatch) (l : List LiquidTagMatch) :
    u ∈ sortByLine l ↔ u ∈ l := by
  induction l with
  | nil => simp [sortByLine]
  | cons x xs ih => simp [sortByLine, mem_insertByLine, ih]

theorem tagdefs_never_safe : ∀ e ∈ TAG_DEFS, e.2.crossPostSafe = false := by
  intro e he
  fin_cases he <;> rfl

theorem crossPostSafeFor_eq_false (s : String) : crossPostSafeFor s = false := by
  unfold crossPostSafeFor
  cases h : tagDefFor s with
  | none => rfl
  | some d =>
    unfold tagDefFor at h
    rcases Option.map_eq_some'.mp h with ⟨e, hfind, rfl⟩
    exact tagdefs_never_safe e (List.mem_of_find?_eq_some hfind)

/-! ## Claim theorems -/

/-- C3: for every input parameter set, `validateArticle` returns
`valid = true` iff no returned issue has severity `error`; warnings and
info never make `valid` false. -/
theorem validateArticle_valid_iff_no_error (p : ValidateArticleParams) :
    (validateArticle p).valid = true ↔
      ∀ i ∈ (validateArticle p).issues, i.severity ≠ Severity.error := by
  have hv : (validateArticle p).valid =
      !((validateArticle p).issues.any (fun i => i.severity == Severity.error)) := rfl
  rw [hv]
  simp [List.any_eq_true]

theorem validateArticle_valid_iff_no_error_witness :
    ((validateArticle { title := some "T" }).valid = true ↔
      ∀ i ∈ (validateArticle { title := some "T" }).issues,
        i.severity ≠ Severity.error) :=
  validateArticle_valid_iff_no_error { title := some "T" }

/-- C4: no match kept by the liquid-tag scanner (block or inline) starts
at an offset inside a fenced code region, where fences are toggled by
lines whose trimmed content begins with triple backticks and an
unterminated fence extends to the document's end
(`detectLiquidTags` reports exactly the kept matches). -/
theorem detectKept_outside_fences (md : String) :
    ∀ e ∈ detectKept md.data, isInsideCodeFence (codeFenceRanges md.data) e.1 = false := by
  intro e he
  simp only [detectKept, List.mem_append, List.mem_map] at he
  rcases he with ⟨f, hf, rfl⟩ | ⟨f, hf, rfl⟩
  · have hcond := (List.mem_filter.mp hf).2
    simpa using hcond
  · have hcond := (List.mem_filter.mp hf).2
    simp [Bool.and_eq_true] at hcond
    exact hcond.1.1

theorem detectKept_outside_fences_witness :
    isInsideCodeFence (codeFenceRanges "\x7b%a%\x7d".data) 0 = false :=
  detectKept_outside_fences "\x7b%a%\x7d" (0, ⟨5, ['a'], [], none⟩, false) (by decide)

/-- C9: every match reported by `detectLiquidTags` has
`crossPostSafe = false` (the whole static table is unsafe and unknown
names default to unsafe), so `hasCrossPostUnsafe` holds exactly when the
tag list is non-empty. -/
theorem detectLiquidTags_never_safe (md : String) :
    (∀ t ∈ (detectLiquidTags md).tags, t.crossPostSafe = false) ∧
    (detectLiquidTags md).hasCrossPostUnsafe = !(detectLiquidTags md).tags.isEmpty := by
  by_cases h : md = ""
  · subst h
    exact ⟨by intro t ht; simp [detectLiquidTags] at ht, by decide⟩
  · have htags : (detectLiquidTags md).tags =
        sortByLine ((detectKept md.data).map (toLiquidTag md.data)) := by
      simp [detectLiquidTags, h]
    have hcross : (detectLiquidTags md).hasCrossPostUnsafe =
        (detectLiquidTags md).tags.any (fun t => !t.crossPostSafe) := by
      simp [detectLiquidTags, h]
    have hall : ∀ t ∈ (detectLiquidTags md).tags, t.crossPostSafe = false := by
      intro t ht
      rw [htags, mem_sortByLine] at ht
      rcases List.mem_map.mp ht with ⟨e, _, rfl⟩
      exact crossPostSafeFor_eq_false _
    refine ⟨hall, ?_⟩
    rw [hcross]
    cases hl : (detectLiquidTags md).tags with
    | nil => rfl
    | cons t ts =>
      have hts : t.crossPostSafe = false := hall t (by rw [hl]; exact List.mem_cons_self t ts)
      simp [List.any_cons, hts]

theorem detectLiquidTags_never_safe_witness :
    (∀ t ∈ (detectLiquidTags "\x7b% youtube abc %\x7d").tags, t.crossPostSafe = false) ∧
    (detectLiquidTags "\x7b% youtube abc %\x7d").hasCrossPostUnsafe =
      !(detectLiquidTags "\x7b% youtube abc %\x7d").tags.isEmpty :=
  detectLiquidTags_never_safe "\x7b% youtube abc %\x7d"

/-- C10: an empty-string title counts as absent (the presence error is
produced), and an empty-string `body_markdown` behaves exactly like an
absent one: every body-dependent check contributes nothing. -/
theorem validateArticle_empty_strings_absent :
    (validateArticle { title := some "" } =
      ⟨false, [⟨.error, "validation_failed",
        "Article must have a title or body_markdown.", none⟩]⟩) ∧
    ∀ p : ValidateArticleParams,
      validateArticle { p with body_markdown := some "" } =
        validateArticle { p with body_markdown := none } := by
  exact ⟨rfl, fun p => rfl⟩

theorem validateArticle_empty_strings_absent_witness :
    validateArticle { title := some "T", body_markdown := some "" } =
      validateArticle { title := some "T", body_markdown := none } :=
  validateArticle_empty_strings_absent.2 { title := some "T" }

theorem matterParse_eq_none_of_head (body : String)
    (h : (splitLines body.data).head? ≠ some ("---".data)) :
    matterParse body = none := by
  unfold matterParse
  cases hs : splitLines body.data with
  | nil => rfl
  | cons first rest =>
    have hne : ¬(first = "---".data) := by
      intro e
      exact h (by rw [hs, e]; rfl)
    simp [hne]

theorem parseFrontMatter_of_matterParse_none (body : String)
    (h : matterParse body = none) :
    parseFrontMatter body = ⟨body, [], false⟩ := by
  unfold parseFrontMatter
  split
  · rfl
  · rw [h]

/-- C7: `parseFrontMatter` is total and degrades instead of failing: a
document whose first line is not the `---` delimiter yields
`hasFrontMatter = false` with `cleanBody` equal to the input, and any
document on which the metadata-block recognizer fails (malformed or
unterminated block) yields the same no-front-matter result. -/
theorem parseFrontMatter_never_raises :
    (∀ body : String, (splitLines body.data).head? ≠ some ("---".data) →
        parseFrontMatter body = ⟨body, [], false⟩) ∧
    (∀ body : String, matterParse body = none →
        parseFrontMatter body = ⟨body, [], false⟩) :=
  ⟨fun body h => parseFrontMatter_of_matterParse_none body (matterParse_eq_none_of_head body h),
   fun body h => parseFrontMatter_of_matterParse_none body h⟩

theorem parseFrontMatter_never_raises_witness :
    (parseFrontMatter "# Hello World" = ⟨"# Hello World", [], false⟩) ∧
    (parseFrontMatter "---\ntitle: unterminated" =
      ⟨"---\ntitle: unterminated", [], false⟩) :=
  ⟨parseFrontMatter_never_raises.1 "# Hello World" (by decide),
   parseFrontMatter_never_raises.2 "---\ntitle: unterminated" (by decide)⟩

/-- C8: `isSubstantialContent` is false on every whitespace-only
document, and otherwise true exactly when the stripping pipeline
(fences, inline code, images, links to labels, HTML tags, markdown
punctuation) leaves at least 10 whitespace-separated words. -/
theorem isSubstantialContent_word_threshold :
    (∀ md : String, String.mk (trimChars md.data) = "" →
        isSubstantialContent md = false) ∧
    (∀ md : String, String.mk (trimChars md.data) ≠ "" →
        (isSubstantialContent md = true ↔
          10 ≤ (wsTokens (strippedContent md.data)).length)) := by
  constructor
  · intro md h
    simp [isSubstantialContent, h]
  · intro md h
    have hne : ¬(md = "") := by
      intro e
      subst e
      exact h rfl
    simp [isSubstantialContent, hne, h]

theorem isSubstantialContent_word_threshold_witness :
    (isSubstantialContent "   " = false) ∧
    (isSubstantialContent "one two three four five six seven eight nine ten" = true ↔
      10 ≤ (wsTokens (strippedContent
        "one two three four five six seven eight nine ten".data)).length) :=
  ⟨isSubstantialContent_word_threshold.1 "   " (by decide),
   isSubstantialContent_word_threshold.2
     "one two three four five six seven eight nine ten" (by decide)⟩

/-- C5: `stripLiquidTags` applies the scanner's code-fence exclusion
against the current state of the string: a block or inline candidate
whose offset lies inside a fenced region is replaced by its own matched
text, so a document all of whose candidates start inside fences — such
as a fence containing a tag — is returned verbatim. -/
theorem stripLiquidTags_preserves_fenced :
    (∀ (cs : List Char) (i : Nat) (m : RegexMatch),
        isInsideCodeFence (codeFenceRanges cs) i = true →
        stripBlockCb cs i m = matchedText cs i m.len) ∧
    (∀ (cs : List Char) (i : Nat) (m : RegexMatch),
        isInsideCodeFence (codeFenceRanges cs) i = true →
        stripInlineCb cs i m = matchedText cs i m.len) ∧
    (∀ md : String,
      (∀ i, i < md.data.length → (matchBlockAt md.data i).isSome = true →
          isInsideCodeFence (codeFenceRanges md.data) i = true) →
      (∀ i, i < md.data.length → (matchInlineAt md.data i).isSome = true →
          isInsideCodeFence (codeFenceRanges md.data) i = true) →
      stripLiquidTags md = md) := by
  have hblock : ∀ (cs : List Char) (i : Nat) (m : RegexMatch),
      isInsideCodeFence (codeFenceRanges cs) i = true →
      stripBlockCb cs i m = matchedText cs i m.len := by
    intro cs i m h
    simp [stripBlockCb, h]
  have hinline : ∀ (cs : List Char) (i : Nat) (m : RegexMatch),
      isInsideCodeFence (codeFenceRanges cs) i = true →
      stripInlineCb cs i m = matchedText cs i m.len := by
    intro cs i m h
    by_cases hend : "end".data.isPrefixOf (lowerStr m.name) = true
    · simp [stripInlineCb, hend]
    · simp [stripInlineCb, hend, h]
  refine ⟨hblock, hinline, ?_⟩
  intro md h1 h2
  by_cases hmd : md = ""
  · subst hmd; rfl
  · have hb : ∀ i m, matchBlockAt md.data i = some m →
        stripBlockCb md.data i m = matchedText md.data i m.len := by
      intro i m hm
      by_cases hi : i < md.data.length
      · exact hblock md.data i m (h1 i hi (by rw [hm]; rfl))
      · exact absurd hm (by rw [matchBlockAt_none_of_ge md.data i (Nat.le_of_not_lt hi)]; intro e; cases e)
    have hi2 : ∀ i m, matchInlineAt md.data i = some m →
        stripInlineCb md.data i m = matchedText md.data i m.len := by
      intro i m hm
      by_cases hi : i < md.data.length
      · exact hinline md.data i m (h2 i hi (by rw [hm]; rfl))
      · exact absurd hm (by rw [matchInlineAt_none_of_ge md.data i (Nat.le_of_not_lt hi)]; intro e; cases e)
    have e1 : replaceFrom md.data (matchBlockAt md.data) (fun m => m.len)
        (stripBlockCb md.data) 0 (md.data.length + 1) = md.data := by
      rw [replaceFrom_id md.data _ _ _ hb]
      exact List.drop_zero md.data
    have e2 : replaceFrom md.data (matchInlineAt md.data) (fun m => m.len)
        (stripInlineCb md.data) 0 (md.data.length + 1) = md.data := by
      rw [replaceFrom_id md.data _ _ _ hi2]
      exact List.drop_zero md.data
    show (if md = "" then "" else String.mk _) = md
    rw [if_neg hmd]
    rw [e1, e2]

theorem stripLiquidTags_preserves_fenced_witness :
    stripLiquidTags "```\n\x7b% youtube abc %\x7d\n```" = "```\n\x7b% youtube abc %\x7d\n```" :=
  stripLiquidTags_preserves_fenced.2.2 "```\n\x7b% youtube abc %\x7d\n```"
    (by decide) (by decide)

/-! ## Image extraction lemmas (C6) -/

theorem extractLoop_eq_enumFrom (ls : List (List Char)) (idx : Nat) :
    extractLoop ls idx =
      (ls.enumFrom idx).flatMap (fun pr => lineImageRefs pr.2 (pr.1 + 1)) := by
  induction ls generalizing idx with
  | nil => rfl
  | cons l rest ih =>
    show lineImageRefs l (idx + 1) ++ extractLoop rest (idx + 1) = _
    rw [ih]
    rfl

theorem lineImageRefs_isAbsolute (line : List Char) (n : Nat) (r : ImageUrlInfo)
    (h : r ∈ lineImageRefs line n) : r.isAbsolute = isAbsoluteUrl r.url := by
  simp only [lineImageRefs, List.mem_append, List.mem_map] at h
  rcases h with ⟨f, _, rfl⟩ | ⟨f, _, rfl⟩ <;> rfl

theorem extractLoop_isAbsolute (ls : List (List Char)) (idx : Nat) (r : ImageUrlInfo)
    (h : r ∈ extractLoop ls idx) : r.isAbsolute = isAbsoluteUrl r.url := by
  induction ls generalizing idx with
  | nil => cases h
  | cons l rest ih =>
    rcases List.mem_append.mp h with hl | hr
    · exact lineImageRefs_isAbsolute l (idx + 1) r hl
    · exact ih (idx + 1) hr

/-- C6: `extractImageUrls` records, per 1-based line in document order,
every markdown-image match and every HTML `img src` match of that line
in encounter order, and each reference's `isAbsolute` is true exactly
when its URL begins with `http://` or `https://` case-insensitively. -/
theorem extractImageUrls_per_line :
    (∀ md : String, extractImageUrls md =
        ((splitLines md.data).enum).flatMap (fun pr => lineImageRefs pr.2 (pr.1 + 1))) ∧
    (∀ (md : String) (r : ImageUrlInfo), r ∈ extractImageUrls md →
        (r.isAbsolute = true ↔
          ("http://".data.isPrefixOf (lowerStr r.url.data) = true ∨
           "https://".data.isPrefixOf (lowerStr r.url.data) = true))) := by
  have habs : ∀ (md : String) (r : ImageUrlInfo), r ∈ extractImageUrls md →
      r.isAbsolute = isAbsoluteUrl r.url := by
    intro md r h
    by_cases hmd : md = ""
    · subst hmd; cases h
    · rw [extractImageUrls, if_neg hmd] at h
      exact extractLoop_isAbsolute _ 0 r h
  constructor
  · intro md
    by_cases hmd : md = ""
    · subst hmd; decide
    · rw [extractImageUrls, if_neg hmd, extractLoop_eq_enumFrom]
      rfl
  · intro md r h
    rw [habs md r h, isAbsoluteUrl]
    constructor
    · intro hor
      rcases Bool.or_eq_true _ _ |>.mp hor with h1 | h1
      · exact Or.inl h1
      · exact Or.inr h1
    · intro hor
      rcases hor with h1 | h1 <;> simp [h1]

theorem extractImageUrls_per_line_witness :
    (ImageUrlInfo.mk "https://x/i.png" 1 true).isAbsolute = true ↔
      ("http://".data.isPrefixOf (lowerStr "https://x/i.png".data) = true ∨
       "https://".data.isPrefixOf (lowerStr "https://x/i.png".data) = true) :=
  extractImageUrls_per_line.2 "![](https://x/i.png)"
    (ImageUrlInfo.mk "https://x/i.png" 1 true) (by decide)

/-! ## Merge lemmas (C1) -/

theorem find?_cons_eq {α : Type} (p : α → Bool) (a : α) (l : List α) :
    (a :: l).find? p = if p a = true then some a else l.find? p := by
  rw [List.find?_cons]
  cases p a <;> simp

theorem find_map_update (o : List (String × JVal)) (k : String) (v : JVal) :
    (o.map (fun p => if p.1 == k then (k, v) else p)).find? (fun p => p.1 == k) =
      if objHas o k then some (k, v) else none := by
  induction o with
  | nil => simp [objHas]
  | cons p rest ih =>
    simp only [List.map_cons]
    by_cases h : (p.1 == k) = true
    · rw [if_pos h, find?_cons_eq]
      rw [if_pos (by simp : ((k, v).1 == k) = true)]
      have h1 : objHas (p :: rest) k = true := by
        simp [objHas, List.any_cons, h]
      rw [h1, if_pos rfl]
    · rw [if_neg h, find?_cons_eq, if_neg h, ih]
      have h1 : objHas (p :: rest) k = objHas rest k := by
        simp [objHas, List.any_cons, h]
      rw [h1]

theorem find_map_update_ne (o : List (String × JVal)) (k k' : String) (v : JVal)
    (h : k' ≠ k) :
    (o.map (fun p => if p.1 == k' then (k', v) else p)).find? (fun p => p.1 == k) =
      o.find? (fun p => p.1 == k) := by
  induction o with
  | nil => rfl
  | cons p rest ih =>
    simp only [List.map_cons]
    by_cases hp : (p.1 == k') = true
    · have hp1 : p.1 = k' := by simpa using hp
      have hk2 : ¬(((k', v) : String × JVal).1 == k) = true := by simp [h]
      have hk3 : ¬(p.1 == k) = true := by simp [hp1, h]
      rw [if_pos hp, find?_cons_eq, if_neg hk2, find?_cons_eq, if_neg hk3, ih]
    · rw [if_neg hp, find?_cons_eq, find?_cons_eq]
      by_cases hk : (p.1 == k) = true
      · rw [if_pos hk, if_pos hk]
      · rw [if_neg hk, if_neg hk, ih]

theorem objHas_false_find_none (o : List (String × JVal)) (k : String)
    (h : ¬objHas o k = true) : o.find? (fun p => p.1 == k) = none := by
  rw [List.find?_eq_none]
  intro x hx hpx
  exact h (List.any_eq_true.mpr ⟨x, hx, hpx⟩)

theorem objGet_objSet_self (o : List (String × JVal)) (k : String) (v : JVal) :
    objGet (objSet o k v) k = some v := by
  unfold objSet
  by_cases h : objHas o k
  · rw [if_pos h]
    unfold objGet
    rw [find_map_update, if_pos h]
    rfl
  · rw [if_neg h]
    unfold objGet
    rw [List.find?_append, objHas_false_find_none o k h]
    rw [find?_cons_eq]
    rw [if_pos (by simp : ((k, v).1 == k) = true)]
    rfl

theorem objGet_objSet_ne (o : List (String × JVal)) (k k' : String) (v : JVal)
    (h : k' ≠ k) : objGet (objSet o k' v) k = objGet o k := by
  unfold objSet objGet
  by_cases hh : objHas o k'
  · rw [if_pos hh, find_map_update_ne o k k' v h]
  · rw [if_neg hh, List.find?_append]
    have hnone : ([((k' : String), v)].find? (fun p => p.1 == k)) = none := by
      rw [find?_cons_eq]
      rw [if_neg (by simp [h] : ¬(((k', v) : String × JVal).1 == k) = true)]
      rfl
    rw [hnone]
    cases o.find? (fun p => p.1 == k) <;> rfl

theorem mergeLoop_params_preserve (ex : List (String × JVal))
    (entries : List (String × JVal)) (k : String)
    (h : ∀ e ∈ entries, e.1 ≠ k) :
    ∀ merged conflicts,
      objGet (mergeLoop ex merged conflicts entries).1 k = objGet merged k := by
  induction entries with
  | nil => intro m c; rfl
  | cons e rest ih =>
    intro m c
    obtain ⟨k0, v0⟩ := e
    have hk0 : k0 ≠ k := h (k0, v0) (List.mem_cons_self _ _)
    have hrest : ∀ e ∈ rest, e.1 ≠ k := fun e he => h e (List.mem_cons_of_mem _ he)
    by_cases hv : v0 = JVal.undefined
    · simp only [mergeLoop, if_pos hv]
      exact ih hrest m c
    · simp only [mergeLoop, if_neg hv]
      rw [ih hrest]
      exact objGet_objSet_ne m k k0 v0 hk0

theorem mergeLoop_params_mem (ex : List (String × JVal)) :
    ∀ (entries : List (String × JVal)) (merged : List (String × JVal))
      (conflicts : List MergeConflict) (k : String) (v : JVal),
      (entries.map Prod.fst).Nodup → (k, v) ∈ entries → v ≠ JVal.undefined →
      objGet (mergeLoop ex merged conflicts entries).1 k = some v := by
  intro entries
  induction entries with
  | nil => intro m c k v _ hmem; cases hmem
  | cons e rest ih =>
    intro m c k v hnd hmem hv
    obtain ⟨k0, v0⟩ := e
    rcases List.mem_cons.mp hmem with heq | hmem2
    · obtain ⟨rfl, rfl⟩ := Prod.mk.injEq .. ▸ And.intro (congrArg Prod.fst heq) (congrArg Prod.snd heq)
      simp only [mergeLoop, if_neg hv]
      have hrest : ∀ e ∈ rest, e.1 ≠ k := by
        intro e he hek
        have : k ∈ rest.map Prod.fst := List.mem_map.mpr ⟨e, he, hek⟩
        exact (List.nodup_cons.mp (by simpa using hnd)).1 this
      rw [mergeLoop_params_preserve ex rest k hrest]
      exact objGet_objSet_self m k v
    · have hnd2 : (rest.map Prod.fst).Nodup := (List.nodup_cons.mp (by simpa using hnd)).2
      by_cases hv0 : v0 = JVal.undefined
      · simp only [mergeLoop, if_pos hv0]
        exact ih m c k v hnd2 hmem2 hv
      · simp only [mergeLoop, if_neg hv0]
        exact ih _ _ k v hnd2 hmem2 hv

/-- C1: for every body with front matter and every explicit parameter
record, each field present (not `undefined`) in the explicit parameters
maps to its explicit value in the merged params — explicit values always
overwrite front-matter values; in particular the spec example yields the
explicit title, exactly one conflict on `title`, and the stripped body. -/
theorem mergeAndNormalize_explicit_precedence :
    (∀ (b : String) (ps : List (String × JVal)) (k : String) (v : JVal),
        (ps.map Prod.fst).Nodup → (parseFrontMatter b).hasFrontMatter = true →
        (k, v) ∈ ps → v ≠ JVal.undefined →
        objGet (mergeAndNormalize (some b) ps).params k = some v) ∧
    (objGet (mergeAndNormalize (some "---\ntitle: FM Title\n---\n# Content")
        [("title", JVal.str "JSON Title")]).params "title" =
        some (JVal.str "JSON Title") ∧
     (mergeAndNormalize (some "---\ntitle: FM Title\n---\n# Content")
        [("title", JVal.str "JSON Title")]).conflicts =
        [⟨"title", JVal.str "FM Title", JVal.str "JSON Title"⟩] ∧
     String.mk (trimChars (mergeAndNormalize (some "---\ntitle: FM Title\n---\n# Content")
        [("title", JVal.str "JSON Title")]).body.data) = "# Content") := by
  constructor
  · intro b ps k v hnd hfm hmem hv
    by_cases hb : b = ""
    · subst hb
      exact absurd hfm (by decide)
    · unfold mergeAndNormalize
      show objGet (if b = "" then (⟨"", ps, []⟩ : MergeResult)
        else
          let pf := parseFrontMatter b
          if (!pf.hasFrontMatter) = true then ⟨pf.cleanBody, ps, []⟩
          else
            let r := mergeLoop pf.extractedValues (seedKnownFields pf.extractedValues) [] ps
            ⟨pf.cleanBody, r.1, r.2⟩).params k = some v
      rw [if_neg hb]
      show objGet (if (!(parseFrontMatter b).hasFrontMatter) = true
          then (⟨(parseFrontMatter b).cleanBody, ps, []⟩ : MergeResult)
          else ⟨(parseFrontMatter b).cleanBody,
            (mergeLoop (parseFrontMatter b).extractedValues
              (seedKnownFields (parseFrontMatter b).extractedValues) [] ps).1,
            (mergeLoop (parseFrontMatter b).extractedValues
              (seedKnownFields (parseFrontMatter b).extractedValues) [] ps).2⟩).params
        k = some v
      rw [hfm]
      rw [if_neg (by simp : ¬((!true) = true))]
      exact mergeLoop_params_mem _ ps _ [] k v hnd hmem hv
  · refine ⟨by decide, by decide, by decide⟩

theorem mergeAndNormalize_explicit_precedence_witness :
    objGet (mergeAndNormalize (some "---\ntitle: FM Title\n---\n# Content")
      [("title", JVal.str "JSON Title")]).params "title" =
      some (JVal.str "JSON Title") :=
  mergeAndNormalize_explicit_precedence.1 "---\ntitle: FM Title\n---\n# Content"
    [("title", JVal.str "JSON Title")] "title" (JVal.str "JSON Title")
    (by decide) (by decide) (by decide) (by decide)

/-! ## Validator issue-code lemmas (C2) -/

theorem presenceIssues_code (p : ValidateArticleParams) :
    ∀ i ∈ presenceIssues p, i.code = "validation_failed" := by
  intro i hi
  unfold presenceIssues at hi
  split at hi
  · rw [List.mem_singleton.mp hi]
  · cases hi

theorem tagIssues_code (p : ValidateArticleParams) :
    ∀ i ∈ tagIssues p, i.code = "validation_failed" := by
  intro i hi
  unfold tagIssues at hi
  split at hi
  · rcases List.mem_append.mp hi with hl | hr
    · split at hl
      · rw [List.mem_singleton.mp hl]
      · cases hl
    · rcases List.mem_filterMap.mp hr with ⟨t, _, hf⟩
      split at hf
      · cases hf
      · obtain rfl := Option.some.inj hf
        rfl
  · cases hi

theorem coverImageIssues_code (p : ValidateArticleParams) :
    ∀ i ∈ coverImageIssues p, i.code = "image_not_absolute" := by
  intro i hi
  unfold coverImageIssues at hi
  split at hi
  · rw [List.mem_singleton.mp hi]
  · cases hi

theorem bodyImageIssues_code (p : ValidateArticleParams) :
    ∀ i ∈ bodyImageIssues p, i.code = "image_not_absolute" := by
  intro i hi
  unfold bodyImageIssues at hi
  split at hi
  · rcases List.mem_filterMap.mp hi with ⟨im, _, hf⟩
    split at hf
    · cases hf
    · rw [(Option.some.injEq _ _ ▸ hf : _ = i).symm]
  · cases hi

theorem fmConflictIssues_code (p : ValidateArticleParams) :
    ∀ i ∈ fmConflictIssues p, i.code = "front_matter_conflict" ∧
      i.severity = Severity.warning := by
  intro i hi
  unfold fmConflictIssues at hi
  split at hi
  · dsimp only [] at hi
    split at hi
    · rcases List.mem_filterMap.mp hi with ⟨e, _, hf⟩
      split at hf
      all_goals split at hf
      all_goals first
        | (obtain rfl := Option.some.inj hf; exact ⟨rfl, rfl⟩)
        | cases hf
    · cases hi
  · cases hi

theorem liquidIssues_code (p : ValidateArticleParams) :
    ∀ i ∈ liquidIssues p, i.code = "liquid_tag_detected" := by
  intro i hi
  unfold liquidIssues at hi
  split at hi
  · rcases List.mem_map.mp hi with ⟨t, _, rfl⟩
    rfl
  · cases hi

theorem qualityIssues_code (p : ValidateArticleParams) :
    ∀ i ∈ qualityIssues p, i.code = "validation_failed" := by
  intro i hi
  unfold qualityIssues at hi
  split at hi
  · rw [List.mem_singleton.mp hi]
  · cases hi

theorem filter_fm_of_code (l : List ValidationIssue) (c : String)
    (hc : ¬c = "front_matter_conflict")
    (h : ∀ i ∈ l, i.code = c) :
    l.filter (fun i => i.code == "front_matter_conflict") = [] := by
  rw [List.filter_eq_nil_iff]
  intro i hi
  rw [h i hi]
  simp [hc]

/-- C2 (amended): in `validateArticle`, the issues with code
`front_matter_conflict` are exactly the conflict pass's warnings — one
per compared field (`title`, `tags`, `description`, `main_image` when
present, with the `cover_image` alias) whose front-matter value differs
from the explicit value in raw `String(...)` form, without
tag-normalization — and each such issue has severity `warning`. -/
theorem validateArticle_fm_conflicts (p : ValidateArticleParams) :
    ((validateArticle p).issues.filter
        (fun i => i.code == "front_matter_conflict")) = fmConflictIssues p ∧
    ∀ i ∈ fmConflictIssues p, i.severity = Severity.warning := by
  have hsplit : (validateArticle p).issues =
      presenceIssues p ++ tagIssues p ++ coverImageIssues p ++ bodyImageIssues p ++
        fmConflictIssues p ++ liquidIssues p ++ qualityIssues p := rfl
  constructor
  · rw [hsplit]
    simp only [List.filter_append]
    rw [filter_fm_of_code _ _ (by decide) (presenceIssues_code p),
        filter_fm_of_code _ _ (by decide) (tagIssues_code p),
        filter_fm_of_code _ _ (by decide) (coverImageIssues_code p),
        filter_fm_of_code _ _ (by decide) (bodyImageIssues_code p),
        filter_fm_of_code _ _ (by decide) (liquidIssues_code p),
        filter_fm_of_code _ _ (by decide) (qualityIssues_code p)]
    rw [List.filter_eq_self.mpr (by
      intro i hi
      rw [(fmConflictIssues_code p i hi).1]
      rfl)]
    simp
  · intro i hi
    exact (fmConflictIssues_code p i hi).2

theorem validateArticle_fm_conflicts_witness :
    ((validateArticle
        { body_markdown := some "---\ntags:\n  - a\n  - b\n---\nx",
          tags := some (.str "a, b") }).issues.filter
      (fun i => i.code == "front_matter_conflict")) =
      fmConflictIssues
        { body_markdown := some "---\ntags:\n  - a\n  - b\n---\nx",
          tags := some (.str "a, b") } :=
  (validateArticle_fm_conflicts
    { body_markdown := some "---\ntags:\n  - a\n  - b\n---\nx",
      tags := some (.str "a, b") }).1

/-- C2 (counterexample): with explicit tags `"a, b"` and front-matter
tags `[a, b]`, the tag-normalized forms coincide — so a comparison
"using tag-normalization for tags" would find no mismatch — yet
`validateArticle` emits exactly one `front_matter_conflict` warning,
because the code compares raw `String(...)` forms (`"a,b"` vs `"a, b"`). -/
theorem validateArticle_fm_conflicts_counterexample :
    normalizeTags (JVal.list ["a", "b"]) = normalizeTags (JVal.str "a, b") ∧
    (parseFrontMatter "---\ntags:\n  - a\n  - b\n---\nx").extractedValues =
      [("tags", JVal.list ["a", "b"])] ∧
    ((validateArticle
        { body_markdown := some "---\ntags:\n  - a\n  - b\n---\nx",
          tags := some (.str "a, b") }).issues.filter
      (fun i => i.code == "front_matter_conflict")).length = 1 := by
  refine ⟨by decide, by decide, by decide⟩

end Linus

